import Mathlib

/-!
# kapparmor: file equality and file synchronisation

A shallow embedding of `src/app/filesystemOperations.go`:

* `HasTheSameContent` / `compareBytes` (the equality checker), over an abstract
  `fs.FS` value or, when none is supplied, over the operating system's files;
* `CopyFile` / `copyFileContents` (the sync materializer), as state passing over a
  model of the operating system's file namespace.

The Go functions call into the operating system.  The operating system is modelled
here by a namespace (path to inode number), an inode table whose inodes are regular
files, directories, symbolic links or special files, and a record of the failures the
environment may inject into the calls that can fail for reasons the namespace does
not determine (link, open, create, copy, sync, close).  `os.Stat`, `os.Open`,
`os.Create` and `os.ReadFile` follow a symbolic link at the path they are given;
`os.Link` does not: it gives the link itself a second name.  Every run also records
the sequence of calls it performed, so that statements such as "nothing is opened" or
"no content copy is performed" can be stated.

`log.Print*` calls are not modelled; `log.Fatal`, which ends the process, is an
outcome of its own.
-/

set_option autoImplicit false

namespace Kapparmor

/-! ## Data model -/

/-- One byte of file content. -/
abbrev Byte := Fin 256

/-- File content, as `[]byte`. -/
abbrev Bytes := List Byte

/-- Error numbers the operating system reports. -/
inductive Errno where
  | ENOENT
  | EEXIST
  | EISDIR
  | EACCES
  | EXDEV
  /-- The error `EIO` (input/output error). -/
  | EIOERR
  | EINVAL
  | ELOOP
  deriving DecidableEq, Repr

/-- What `fs.FileMode` distinguishes: `Mode().IsRegular()` holds for `regular` only.
A symbolic link carries its target, as written in the link. -/
inductive FileKind where
  | regular
  | directory
  | symlink (target : String)
  | special
  deriving DecidableEq, Repr

/-- The method `FileMode.IsRegular`. -/
def FileKind.IsRegular : FileKind → Bool
  | .regular => true
  | _ => false

/-- Error values the Go functions build or pass on. -/
inductive GoError where
  /-- An error returned by an `os`, `io` or `fs` call. -/
  | os (e : Errno)
  /-- The value of `fmt.Errorf("CopyFile: non-regular source file %s (%q)", ...)`. -/
  | nonRegularSource (name : String) (mode : FileKind)
  /-- The value of `fmt.Errorf("CopyFile: non-regular destination file %s (%q)", ...)`. -/
  | nonRegularDestination (name : String) (mode : FileKind)
  /-- The value of `fmt.Errorf("ERROR: files not found")`. -/
  | filesNotFound
  deriving DecidableEq, Repr

/-- The two "non-regular file" errors of `CopyFile`. -/
def GoError.isNonRegular : GoError → Bool
  | .nonRegularSource _ _ => true
  | .nonRegularDestination _ _ => true
  | _ => false

/-- How a call of a Go function ends: it returns a value to its caller, or
`log.Fatal` ends the process (exit status 1) and nothing is returned. -/
inductive Outcome (α : Type) where
  | ret (a : α)
  | fatal (e : GoError)
  deriving DecidableEq, Repr

/-- The calls a run performs, in order. -/
inductive Call where
  | stat (p : String)
  | link (old new : String)
  | osOpen (p : String)
  | osCreate (p : String)
  | ioCopy
  | sync
  | close (p : String)
  | readFile (p : String)
  | readDir
  | fsOpen (name : String)
  | readAll (name : String)
  | fsClose (name : String)
  deriving DecidableEq, Repr

/-! ## Paths: `filepath.Base`, `path.Clean`, `path.Join` -/

/-- Removal of trailing slashes (first loop of `filepath.Base`). -/
def stripTrailingSlashes (cs : List Char) : List Char :=
  (cs.reverse.dropWhile (fun c => c = '/')).reverse

/-- The part after the last slash (second loop of `filepath.Base`). -/
def lastElement (cs : List Char) : List Char :=
  (cs.reverse.takeWhile (fun c => c ≠ '/')).reverse

/-- The function `filepath.Base` on a slash-separated path. -/
def filepathBase (p : String) : String :=
  if p.data = [] then "."
  else
    let e := lastElement (stripTrailingSlashes p.data)
    if e = [] then "/" else String.mk e

/-- Splitting at every slash. -/
def splitSlash : List Char → List (List Char)
  | [] => [[]]
  | c :: cs =>
    if c = '/' then [] :: splitSlash cs
    else
      match splitSlash cs with
      | [] => [[c]]
      | e :: es => (c :: e) :: es

/-- One element of `path.Clean`; `stack` holds the kept elements, last first. -/
def cleanStep (rooted : Bool) (stack : List (List Char)) (e : List Char) : List (List Char) :=
  if e = [] ∨ e = ['.'] then stack
  else if e = ['.', '.'] then
    match stack with
    | top :: rest => if top = ['.', '.'] then e :: stack else rest
    | [] => if rooted then [] else [e]
  else e :: stack

/-- The function `path.Clean`, element by element. -/
def pathClean (p : List Char) : List Char :=
  if p = [] then ['.']
  else
    let rooted := p.head? = some '/'
    let out := ((splitSlash p).foldl (cleanStep rooted) []).reverse
    let body := List.intercalate ['/'] out
    if rooted then '/' :: body else if body = [] then ['.'] else body

/-- The function `path.Join` at two elements. -/
def pathJoin (a b : String) : String :=
  if a.data = [] ∧ b.data = [] then ""
  else if a.data = [] then String.mk (pathClean b.data)
  else String.mk (pathClean (a.data ++ '/' :: b.data))

/-- The function `path.Dir`: the path without its last element, cleaned. -/
def pathDir (p : String) : String :=
  String.mk (pathClean (p.data.reverse.dropWhile (fun c => c ≠ '/')).reverse)

/-- The path a symbolic link found at `p` leads to: its target when that is absolute,
else its target taken from the directory of `p`. -/
def linkTarget (p target : String) : String :=
  if target.data.head? = some '/' then String.mk (pathClean target.data)
  else pathJoin (pathDir p) target

/-! ## The operating system's files -/

/-- An inode: its kind (with the target, for a symbolic link) and, for a regular
file, its content. -/
structure Inode where
  kind : FileKind
  data : Bytes
  deriving DecidableEq, Repr

/-- The state of the file system: which inode each path names (the entry itself: a
symbolic link is not followed here), the inode table, and the next unused inode
number. -/
structure FS where
  names : String → Option Nat
  inodes : Nat → Inode
  next : Nat

/-- Every named inode has been allocated. -/
def FS.WF (fs : FS) : Prop :=
  ∀ p i, fs.names p = some i → i < fs.next

/-- Failures of the environment: `none` lets the call through. -/
structure Faults where
  linkErr : Option Errno
  openErr : String → Option Errno
  createErr : String → Option Errno
  /-- Failure of `io.Copy` after the given number of bytes was written. -/
  copyErr : Option (Nat × Errno)
  syncErr : Option Errno
  closeErr : Option Errno

/-- No failure is injected. -/
def noFaults : Faults :=
  ⟨none, fun _ => none, fun _ => none, none, none, none⟩

/-- What `os.Stat` returns: `Name()`, `Mode()` and the identity `os.SameFile` compares. -/
structure OSFileInfo where
  name : String
  mode : FileKind
  ino : Nat
  deriving DecidableEq, Repr

/-- Following symbolic links from `p`, at most `n` entries being looked at: the path
reached, with the inode there (never a symbolic link) or `none` when that path names
nothing; too long a chain of links is `ELOOP`. -/
def follow : Nat → FS → String → Except Errno (String × Option Nat)
  | 0, _, _ => .error .ELOOP
  | n + 1, fs, p =>
    match fs.names p with
    | none => .ok (p, none)
    | some i =>
      match (fs.inodes i).kind with
      | .symlink target => follow n fs (linkTarget p target)
      | _ => .ok (p, some i)

/-- Path resolution as the system calls that follow links do it (at most 40 links). -/
def resolve (fs : FS) (p : String) : Except Errno (String × Option Nat) :=
  follow 41 fs p

/-- The call `os.Stat`: it follows symbolic links, and fails when the path reached
names nothing. -/
def osStat (fs : FS) (p : String) : Except Errno OSFileInfo :=
  match resolve fs p with
  | .error e => .error e
  | .ok (_, none) => .error .ENOENT
  | .ok (_, some i) => .ok ⟨filepathBase p, (fs.inodes i).kind, i⟩

/-- The function `os.SameFile`. -/
def osSameFile (a b : OSFileInfo) : Bool :=
  a.ino = b.ino

/-- The call `os.Link`: neither path is followed when it is a symbolic link (the link
itself gets the new name); the new path must name nothing; directories are not
linked. -/
def osLink (env : Faults) (fs : FS) (old new : String) : Except Errno FS :=
  match fs.names old with
  | none => .error .ENOENT
  | some i =>
    match fs.names new with
    | some _ => .error .EEXIST
    | none =>
      if (fs.inodes i).kind = .directory then .error .EACCES
      else
        match env.linkErr with
        | some e => .error e
        | none => .ok { fs with names := fun q => if q = new then some i else fs.names q }

/-- The call `os.Open` (read only), which follows symbolic links; the handle is the
inode number. -/
def osOpen (env : Faults) (fs : FS) (p : String) : Except Errno Nat :=
  match resolve fs p with
  | .error e => .error e
  | .ok (_, none) => .error .ENOENT
  | .ok (_, some i) =>
    match env.openErr p with
    | some e => .error e
    | none => .ok i

/-- The call `os.Create`, which follows symbolic links: an existing regular file is
truncated, a missing one is created empty at the path reached; the handle is the
inode number. -/
def osCreate (env : Faults) (fs : FS) (p : String) : Except Errno (Nat × FS) :=
  match env.createErr p with
  | some e => .error e
  | none =>
    match resolve fs p with
    | .error e => .error e
    | .ok (_, some i) =>
      match (fs.inodes i).kind with
      | .regular =>
        .ok (i, { fs with inodes := fun j => if j = i then ⟨.regular, []⟩ else fs.inodes j })
      | .directory => .error .EISDIR
      | _ => .error .EINVAL
    | .ok (q, none) =>
      .ok (fs.next,
        { names := fun r => if r = q then some fs.next else fs.names r
          inodes := fun j => if j = fs.next then ⟨.regular, []⟩ else fs.inodes j
          next := fs.next + 1 })

/-- Writing `bytes` as the content of inode `i`. -/
def FS.write (fs : FS) (i : Nat) (bytes : Bytes) : FS :=
  { fs with inodes := fun j => if j = i then ⟨(fs.inodes i).kind, bytes⟩ else fs.inodes j }

/-- The call `io.Copy(out, in)` on two handles: reading a directory fails, an
injected failure leaves the bytes written so far in `out`. -/
def ioCopy (env : Faults) (fs : FS) (out inp : Nat) : FS × Option Errno :=
  match (fs.inodes inp).kind with
  | .directory => (fs, some .EISDIR)
  | _ =>
    match env.copyErr with
    | some (k, e) => (fs.write out ((fs.inodes inp).data.take k), some e)
    | none => (fs.write out (fs.inodes inp).data, none)

/-- The call `os.ReadFile`. -/
def osReadFile (env : Faults) (fs : FS) (p : String) : Except Errno Bytes :=
  match osOpen env fs p with
  | .error e => .error e
  | .ok i =>
    match (fs.inodes i).kind with
    | .directory => .error .EISDIR
    | _ => .ok (fs.inodes i).data

/-- The content of the regular file at `p`, if `p` leads to one (links followed). -/
def FS.content (fs : FS) (p : String) : Option Bytes :=
  match resolve fs p with
  | .ok (_, some i) =>
    if (fs.inodes i).kind = .regular then some (fs.inodes i).data else none
  | _ => none

/-- The path `p` leads to a directory (links followed), as `os.Stat` sees it. -/
def FS.isDir (fs : FS) (p : String) : Bool :=
  match resolve fs p with
  | .ok (_, some i) => (fs.inodes i).kind = .directory
  | _ => false

/-- The entry at `p` is itself a symbolic link. -/
def FS.isSymlink (fs : FS) (p : String) : Bool :=
  match fs.names p with
  | none => false
  | some i =>
    match (fs.inodes i).kind with
    | .symlink _ => true
    | _ => false

/-! ## The abstract file system `fs.FS` -/

/-- A `fs.FileInfo` as `HasTheSameContent` uses it: `Name()` and `Size()`. -/
structure FileInfo where
  name : String
  size : Nat
  deriving DecidableEq, Repr

/-- A `fs.DirEntry`: `Name()` and the result of `Info()`, `none` when `Info()`
returns an error (and so a nil `FileInfo`). -/
structure DirEntry where
  name : String
  info : Option FileInfo
  deriving DecidableEq, Repr

/-- A `fs.File` as `io.ReadAll` sees it. -/
structure File where
  readAll : Except GoError Bytes

/-- A `fs.FS`: the result of `fs.ReadDir(fsys, ".")` and the method `Open`. -/
structure FSys where
  readDir : Except GoError (List DirEntry)
  openFile : String → Except GoError File

/-! ## The equality checker -/

/-- The loop `for _, file := range dir` of `HasTheSameContent`, with the variables
`file1` and `file2` as the accumulator. -/
def scanDir (filePath1 filePath2 : String) :
    List DirEntry → Option FileInfo × Option FileInfo → Option FileInfo × Option FileInfo
  | [], acc => acc
  | file :: rest, (file1, file2) =>
    if filePath1 = file.name then scanDir filePath1 filePath2 rest (file.info, file2)
    else if filePath2 = file.name then scanDir filePath1 filePath2 rest (file1, file.info)
    else scanDir filePath1 filePath2 rest (file1, file2)

/-- The function `bytes.Equal`. -/
def bytesEqual (a b : Bytes) : Bool :=
  decide (a = b)

/-- The function `compareBytes`: the result and the calls made (`n1`, `n2` name the
two handles in the record of calls). -/
def compareBytes (n1 n2 : String) (f1 f2 : File) : (Bool × Option GoError) × List Call :=
  match f1.readAll with
  | .error err => ((false, some err), [.readAll n1])
  | .ok data1 =>
    match f2.readAll with
    | .error err => ((false, some err), [.readAll n1, .readAll n2])
    | .ok data2 =>
      if !bytesEqual data1 data2 then ((false, none), [.readAll n1, .readAll n2])
      else ((true, none), [.readAll n1, .readAll n2])

/-- The function `HasTheSameContent`; `fsys = none` is the nil `fs.FS`, for which the
files of the operating system are read. -/
def HasTheSameContent (env : Faults) (os : FS) (fsys : Option FSys)
    (filePath1 filePath2 : String) : Outcome (Bool × Option GoError) × List Call :=
  match fsys with
  | none =>
    match osReadFile env os filePath1 with
    | .error err => (.fatal (.os err), [.readFile filePath1])
    | .ok fileBytes1 =>
      match osReadFile env os filePath2 with
      | .error err => (.fatal (.os err), [.readFile filePath1, .readFile filePath2])
      | .ok fileBytes2 =>
        if !bytesEqual fileBytes1 fileBytes2 then
          (.ret (false, none), [.readFile filePath1, .readFile filePath2])
        else (.ret (true, none), [.readFile filePath1, .readFile filePath2])
  | some fsys =>
    match fsys.readDir with
    | .error err => (.ret (false, some err), [.readDir])
    | .ok dir =>
      match scanDir filePath1 filePath2 dir (none, none) with
      | (some file1, some file2) =>
        if file1.size ≠ file2.size then (.ret (false, none), [.readDir])
        else
          match fsys.openFile file1.name with
          | .error err => (.ret (false, some err), [.readDir, .fsOpen file1.name])
          | .ok f1 =>
            match fsys.openFile file2.name with
            | .error err =>
              (.ret (false, some err),
                [.readDir, .fsOpen file1.name, .fsOpen file2.name, .fsClose file1.name])
            | .ok f2 =>
              let r := compareBytes file1.name file2.name f1 f2
              (.ret r.1,
                [.readDir, .fsOpen file1.name, .fsOpen file2.name] ++ r.2 ++
                  [.fsClose file2.name, .fsClose file1.name])
      | _ => (.ret (false, some .filesNotFound), [.readDir])

/-! ## The sync materializer -/

/-- The result of a run that may change the file system. -/
structure Run where
  out : Outcome (Option GoError)
  fs : FS
  trace : List Call

/-- The function `copyFileContents`.  The deferred `out.Close()` replaces a nil
result by its own error; the deferred `in.Close()` is ignored. -/
def copyFileContents (env : Faults) (fs : FS) (src dst : String) : Run :=
  match osOpen env fs src with
  | .error err => ⟨.ret (some (.os err)), fs, [.osOpen src]⟩
  | .ok inp =>
    match osCreate env fs dst with
    | .error err => ⟨.ret (some (.os err)), fs, [.osOpen src, .osCreate dst, .close src]⟩
    | .ok (out, fs1) =>
      match ioCopy env fs1 out inp with
      | (fs2, some err) =>
        ⟨.ret (some (.os err)), fs2, [.osOpen src, .osCreate dst, .ioCopy, .close dst, .close src]⟩
      | (fs2, none) =>
        let err := env.syncErr
        let cerr := env.closeErr
        let err := if err = none then cerr else err
        ⟨.ret (err.map GoError.os), fs2,
          [.osOpen src, .osCreate dst, .ioCopy, .sync, .close dst, .close src]⟩

/-- The path `CopyFile` works on: `path.Join(ETC_APPARMORD, filepath.Base(src))`. -/
def dstCompleteFileName (ETC_APPARMORD src : String) : String :=
  pathJoin ETC_APPARMORD (filepathBase src)

/-- The end of `CopyFile`, from `os.Link` on; `pre` is the record of the calls made
before. -/
def linkOrCopy (env : Faults) (fs : FS) (src dstCompleteFileName : String)
    (pre : List Call) : Run :=
  match osLink env fs src dstCompleteFileName with
  | .ok fs1 => ⟨.ret none, fs1, pre ++ [.link src dstCompleteFileName]⟩
  | .error _ =>
    let r := copyFileContents env fs src dstCompleteFileName
    ⟨r.out, r.fs, pre ++ [.link src dstCompleteFileName] ++ r.trace⟩

/-- The function `CopyFile`.  `ETC_APPARMORD` is the package constant of that name,
declared in another file of the package. -/
def CopyFile (ETC_APPARMORD : String) (env : Faults) (fs : FS) (src dst : String) : Run :=
  let _dst := dst
  let dstCompleteFileName := dstCompleteFileName ETC_APPARMORD src
  match osStat fs src with
  | .error err => ⟨.fatal (.os err), fs, [.stat src]⟩
  | .ok sfi =>
    if !sfi.mode.IsRegular then
      ⟨.ret (some (.nonRegularSource sfi.name sfi.mode)), fs, [.stat src]⟩
    else
      match osStat fs dstCompleteFileName with
      | .error _ =>
        linkOrCopy env fs src dstCompleteFileName [.stat src, .stat dstCompleteFileName]
      | .ok dfi =>
        if !dfi.mode.IsRegular then
          ⟨.ret (some (.nonRegularDestination dfi.name dfi.mode)), fs,
            [.stat src, .stat dstCompleteFileName]⟩
        else if osSameFile sfi dfi then
          ⟨.ret none, fs, [.stat src, .stat dstCompleteFileName]⟩
        else
          linkOrCopy env fs src dstCompleteFileName [.stat src, .stat dstCompleteFileName]

/-! ## Sample inputs -/

/-- The bytes of an ASCII string. -/
def ascii (s : String) : Bytes :=
  s.data.map (fun c => Fin.ofNat c.toNat)

/-- The value of the package constant `ETC_APPARMORD` used in the samples. -/
def sampleEtc : String := "/etc/apparmor.d/custom"

/-- A file system with one profile `/cm/a.profile` holding `ABC`, its directory, and
the empty target directory. -/
def sampleFS : FS where
  names := fun p =>
    if p = "/cm/a.profile" then some 0
    else if p = "/cm" then some 1
    else if p = "/etc/apparmor.d/custom" then some 2
    else none
  inodes := fun i =>
    if i = 0 then ⟨.regular, ascii "ABC"⟩
    else if i = 1 ∨ i = 2 then ⟨.directory, []⟩
    else ⟨.special, []⟩
  next := 3

/-- The sample file system with a second, empty profile `/cm/b.profile`. -/
def sampleFS2 : FS where
  names := fun p => if p = "/cm/b.profile" then some 3 else sampleFS.names p
  inodes := fun i => if i = 3 then ⟨.regular, []⟩ else sampleFS.inodes i
  next := 4

/-- The sample file system with a symbolic link `/cm/l.profile`, whose target is the
relative path `a.profile`. -/
def symlinkFS : FS where
  names := fun p => if p = "/cm/l.profile" then some 3 else sampleFS.names p
  inodes := fun i => if i = 3 then ⟨.symlink "a.profile", []⟩ else sampleFS.inodes i
  next := 4

/-- An abstract file system listing `a` and `b`, two files of 10 bytes that differ in
the last byte only, and `c`, of 3 bytes, which cannot be opened. -/
def sampleFSys : FSys where
  readDir := .ok [⟨"a", some ⟨"a", 10⟩⟩, ⟨"b", some ⟨"b", 10⟩⟩, ⟨"c", some ⟨"c", 3⟩⟩]
  openFile := fun n =>
    if n = "a" then .ok ⟨.ok (ascii "0123456789")⟩
    else if n = "b" then .ok ⟨.ok (ascii "012345678X")⟩
    else if n = "c" then .error (.os .EIOERR)
    else .error (.os .ENOENT)

/-- An environment in which hard links cannot be created (another device). -/
def crossDevice : Faults :=
  { noFaults with linkErr := some .EXDEV }

end Kapparmor


namespace Kapparmor

/-! ## Path resolution -/

/-- A path that names nothing resolves to itself, missing. -/
theorem resolve_of_none (fs : FS) (p : String) (h : fs.names p = none) :
    resolve fs p = .ok (p, none) := by
  simp [resolve, follow, h]

/-- A path whose entry is a regular file resolves to that entry. -/
theorem resolve_of_regular (fs : FS) (p : String) (i : Nat) (h : fs.names p = some i)
    (hreg : (fs.inodes i).kind = .regular) : resolve fs p = .ok (p, some i) := by
  simp [resolve, follow, h, hreg]

/-- A path that resolves to an inode has an entry. -/
theorem follow_names_ne_none (fs : FS) (n : Nat) (p q : String) (i : Nat)
    (h : follow n fs p = .ok (q, some i)) : fs.names p ≠ none := by
  intro hn
  cases n with
  | zero => simp [follow] at h
  | succ n => simp [follow, hn] at h

/-- A path whose entry is not a symbolic link resolves to that entry, if to any. -/
theorem resolve_of_not_symlink (fs : FS) (p q : String) (i : Nat)
    (hsym : fs.isSymlink p = false) (h : resolve fs p = .ok (q, some i)) :
    q = p ∧ fs.names p = some i := by
  unfold resolve at h
  unfold FS.isSymlink at hsym
  cases hn : fs.names p with
  | none => simp [follow, hn] at h
  | some j =>
    rw [hn] at hsym
    simp only [follow, hn] at h
    split at h
    · rename_i heq
      simp [heq] at hsym
    · simp only [Except.ok.injEq, Prod.mk.injEq, Option.some.injEq] at h
      exact ⟨h.1.symm, by rw [h.2]⟩

/-- Resolution is kept by a change of state that keeps every entry and the kind of
every inode that has an entry. -/
theorem follow_frame (fs fs1 : FS)
    (hframe : ∀ p i, fs.names p = some i →
      fs1.names p = some i ∧ (fs1.inodes i).kind = (fs.inodes i).kind)
    (n : Nat) (p q : String) (i : Nat) (h : follow n fs p = .ok (q, some i)) :
    follow n fs1 p = .ok (q, some i) := by
  induction n generalizing p with
  | zero => simp [follow] at h
  | succ n ih =>
    cases hn : fs.names p with
    | none => simp [follow, hn] at h
    | some j =>
      obtain ⟨hn1, hk1⟩ := hframe p j hn
      cases hk : (fs.inodes j).kind with
      | symlink t =>
        simp only [follow, hn, hk] at h
        simp only [follow, hn1, hk1, hk]
        exact ih _ h
      | regular =>
        simp only [follow, hn, hk] at h
        simp only [follow, hn1, hk1, hk]
        exact h
      | directory =>
        simp only [follow, hn, hk] at h
        simp only [follow, hn1, hk1, hk]
        exact h
      | special =>
        simp only [follow, hn, hk] at h
        simp only [follow, hn1, hk1, hk]
        exact h

/-- A missing path that a change of state gives to a regular file, every entry and the
kind of its inode being kept, is then resolved to that file. -/
theorem follow_created (fs fs1 : FS)
    (hframe : ∀ p i, fs.names p = some i →
      fs1.names p = some i ∧ (fs1.inodes i).kind = (fs.inodes i).kind)
    (q : String) (m : Nat) (hq : fs1.names q = some m)
    (hm : (fs1.inodes m).kind = .regular)
    (n : Nat) (p : String) (h : follow n fs p = .ok (q, none)) :
    follow n fs1 p = .ok (q, some m) := by
  induction n generalizing p with
  | zero => simp [follow] at h
  | succ n ih =>
    cases hn : fs.names p with
    | none =>
      simp only [follow, hn, Except.ok.injEq, Prod.mk.injEq, and_true] at h
      subst h
      simp [follow, hq, hm]
    | some j =>
      obtain ⟨hn1, hk1⟩ := hframe p j hn
      cases hk : (fs.inodes j).kind with
      | symlink t =>
        simp only [follow, hn, hk] at h
        simp only [follow, hn1, hk1, hk]
        exact ih _ h
      | regular => simp [follow, hn, hk] at h
      | directory => simp [follow, hn, hk] at h
      | special => simp [follow, hn, hk] at h

/-! ## `CopyFile`: failure to stat the source -/

/-- C5 (as stated, refuted): in the sample file system the source `/cm/missing` cannot
be stat'd, and `CopyFile` does not return an error value: the run ends in `log.Fatal`. -/
theorem CopyFile_missing_source_does_not_return :
    osStat sampleFS "/cm/missing" = .error .ENOENT ∧
    (CopyFile sampleEtc noFaults sampleFS "/cm/missing" sampleEtc).out = .fatal (.os .ENOENT) ∧
    ¬ ∃ err, (CopyFile sampleEtc noFaults sampleFS "/cm/missing" sampleEtc).out
        = .ret (some err) := by
  have h : (CopyFile sampleEtc noFaults sampleFS "/cm/missing" sampleEtc).out
      = .fatal (.os .ENOENT) := by
    simp [CopyFile, osStat, resolve, follow, sampleFS]
  refine ⟨by simp [osStat, resolve, follow, sampleFS], h, ?_⟩
  rintro ⟨err, herr⟩
  rw [h] at herr
  cases herr

/-- C5 (amended): when the source path cannot be stat'd, `CopyFile` ends the process
through `log.Fatal` with the error of `os.Stat` (it returns neither nil nor an error
value), having made no call but that `os.Stat`, and the file system is unchanged. -/
theorem CopyFile_stat_failure_is_fatal (ETC_APPARMORD : String) (env : Faults) (fs : FS)
    (src dst : String) (e : Errno) (h : osStat fs src = .error e) :
    (CopyFile ETC_APPARMORD env fs src dst).out = .fatal (.os e) ∧
    (CopyFile ETC_APPARMORD env fs src dst).fs = fs ∧
    (CopyFile ETC_APPARMORD env fs src dst).trace = [.stat src] := by
  simp [CopyFile, h]

/-- Witness of C5 (amended) at the missing source of the sample file system. -/
theorem CopyFile_stat_failure_is_fatal_witness :
    osStat sampleFS "/cm/missing" = .error .ENOENT ∧
    (CopyFile sampleEtc noFaults sampleFS "/cm/missing" sampleEtc).out = .fatal (.os .ENOENT) ∧
    (CopyFile sampleEtc noFaults sampleFS "/cm/missing" sampleEtc).fs = sampleFS ∧
    (CopyFile sampleEtc noFaults sampleFS "/cm/missing" sampleEtc).trace
      = [.stat "/cm/missing"] :=
  ⟨by simp [osStat, resolve, follow, sampleFS],
    CopyFile_stat_failure_is_fatal sampleEtc noFaults sampleFS "/cm/missing" sampleEtc .ENOENT
      (by simp [osStat, resolve, follow, sampleFS])⟩

/-! ## `CopyFile`: non-regular entries -/

/-- C3: when the source path is a directory, or the source is a regular file and the
path `CopyFile` works on exists and is a directory, `CopyFile` returns a non-nil
"non-regular file" error, the file system after the call is the one before it, and
the only calls made are `os.Stat` (no link, no create, no write). -/
theorem CopyFile_rejects_directories (ETC_APPARMORD : String) (env : Faults) (fs : FS)
    (src dst : String)
    (h : fs.isDir src = true ∨
      ((fs.content src).isSome = true ∧
        fs.isDir (dstCompleteFileName ETC_APPARMORD src) = true)) :
    (∃ err, (CopyFile ETC_APPARMORD env fs src dst).out = .ret (some err) ∧
      err.isNonRegular = true) ∧
    (CopyFile ETC_APPARMORD env fs src dst).fs = fs ∧
    ∀ c ∈ (CopyFile ETC_APPARMORD env fs src dst).trace, ∃ p, c = .stat p := by
  rcases h with h | ⟨hs, hd⟩
  · unfold FS.isDir at h
    rcases hr : resolve fs src with e | ⟨q, _ | i⟩
    · simp [hr] at h
    · simp [hr] at h
    · simp [hr] at h
      simp [CopyFile, osStat, hr, h, FileKind.IsRegular, GoError.isNonRegular]
  · unfold FS.content at hs
    unfold FS.isDir at hd
    rcases hr : resolve fs src with e | ⟨q, _ | i⟩
    · simp [hr] at hs
    · simp [hr] at hs
    · rcases hm : resolve fs (dstCompleteFileName ETC_APPARMORD src) with e | ⟨r, _ | j⟩
      · simp [hm] at hd
      · simp [hm] at hd
      · simp [hm] at hd
        by_cases hk : (fs.inodes i).kind = .regular
        · simp [CopyFile, osStat, hr, hm, hk, hd, FileKind.IsRegular, GoError.isNonRegular]
        · simp [hr, hk] at hs

/-- Witness of C3: the source `/cm` of the sample file system is a directory. -/
theorem CopyFile_rejects_directories_witness :
    sampleFS.isDir "/cm" = true ∧
    (∃ err, (CopyFile sampleEtc noFaults sampleFS "/cm" sampleEtc).out = .ret (some err) ∧
      err.isNonRegular = true) ∧
    (CopyFile sampleEtc noFaults sampleFS "/cm" sampleEtc).fs = sampleFS ∧
    ∀ c ∈ (CopyFile sampleEtc noFaults sampleFS "/cm" sampleEtc).trace, ∃ p, c = .stat p :=
  ⟨by decide,
    CopyFile_rejects_directories sampleEtc noFaults sampleFS "/cm" sampleEtc
      (Or.inl (by decide))⟩

/-! ## `CopyFile`: the hard link -/

/-- C9: when the source is a regular file, the path `CopyFile` works on names nothing
and the environment lets the hard link through, `CopyFile` returns nil, the
destination names the inode of the source (`os.SameFile` holds of the two), the calls
made are the two `os.Stat` and the `os.Link` (nothing is opened, created or copied),
and nothing but the new directory entry changes. -/
theorem CopyFile_hard_link_first (ETC_APPARMORD : String) (env : Faults) (fs : FS)
    (src dst : String) (i : Nat)
    (hsrc : fs.names src = some i) (hreg : (fs.inodes i).kind = .regular)
    (hdst : fs.names (dstCompleteFileName ETC_APPARMORD src) = none)
    (hlink : env.linkErr = none) :
    (CopyFile ETC_APPARMORD env fs src dst).out = .ret none ∧
    (CopyFile ETC_APPARMORD env fs src dst).fs.names (dstCompleteFileName ETC_APPARMORD src)
      = some i ∧
    (∃ sfi dfi, osStat (CopyFile ETC_APPARMORD env fs src dst).fs src = .ok sfi ∧
      osStat (CopyFile ETC_APPARMORD env fs src dst).fs
        (dstCompleteFileName ETC_APPARMORD src) = .ok dfi ∧
      osSameFile sfi dfi = true) ∧
    (CopyFile ETC_APPARMORD env fs src dst).trace
      = [.stat src, .stat (dstCompleteFileName ETC_APPARMORD src),
          .link src (dstCompleteFileName ETC_APPARMORD src)] ∧
    (CopyFile ETC_APPARMORD env fs src dst).fs.inodes = fs.inodes ∧
    (CopyFile ETC_APPARMORD env fs src dst).fs.next = fs.next ∧
    ∀ q, q ≠ dstCompleteFileName ETC_APPARMORD src →
      (CopyFile ETC_APPARMORD env fs src dst).fs.names q = fs.names q := by
  have hne : src ≠ dstCompleteFileName ETC_APPARMORD src := by
    intro heq
    rw [← heq, hsrc] at hdst
    cases hdst
  have hrun : CopyFile ETC_APPARMORD env fs src dst =
      ⟨.ret none,
        { fs with names := fun q =>
            if q = dstCompleteFileName ETC_APPARMORD src then some i else fs.names q },
        [.stat src, .stat (dstCompleteFileName ETC_APPARMORD src),
          .link src (dstCompleteFileName ETC_APPARMORD src)]⟩ := by
    simp [CopyFile, linkOrCopy, osStat, osLink, resolve_of_regular fs src i hsrc hreg,
      resolve_of_none fs _ hdst, hsrc, hreg, hdst, hlink, FileKind.IsRegular]
  rw [hrun]
  refine ⟨rfl, by simp, ?_, rfl, rfl, rfl, ?_⟩
  · refine ⟨⟨filepathBase src, .regular, i⟩,
      ⟨filepathBase (dstCompleteFileName ETC_APPARMORD src), .regular, i⟩, ?_, ?_,
      by simp [osSameFile]⟩
    · simp [osStat, resolve, follow, hne, hsrc, hreg]
    · simp [osStat, resolve, follow, hreg]
  · intro q hq
    simp [hq]

/-- Witness of C9: the profile of the sample file system, with no failure injected. -/
theorem CopyFile_hard_link_first_witness :
    sampleFS.names "/cm/a.profile" = some 0 ∧
    (sampleFS.inodes 0).kind = .regular ∧
    sampleFS.names (dstCompleteFileName sampleEtc "/cm/a.profile") = none ∧
    noFaults.linkErr = none ∧
    (CopyFile sampleEtc noFaults sampleFS "/cm/a.profile" sampleEtc).out = .ret none ∧
    (CopyFile sampleEtc noFaults sampleFS "/cm/a.profile" sampleEtc).fs.names
      (dstCompleteFileName sampleEtc "/cm/a.profile") = some 0 :=
  have h := CopyFile_hard_link_first sampleEtc noFaults sampleFS "/cm/a.profile" sampleEtc 0
    (by decide) (by decide) (by decide) rfl
  ⟨by decide, by decide, by decide, rfl, h.1, h.2.1⟩

/-! ## `CopyFile`: the destination directory argument -/

/-- C2 (the code at the failing input): called with the destination directories
`/tmp/x` and `/tmp/y`, `CopyFile` stats and links the same path
`/etc/apparmor.d/custom/a.profile`, built from the package constant, both times; the
path `/tmp/x/a.profile`, which is `dst` joined with the base name of `src`, names
nothing after the successful call. -/
theorem CopyFile_sample_ignores_dst :
    pathJoin "/tmp/x" (filepathBase "/cm/a.profile") = "/tmp/x/a.profile" ∧
    (CopyFile sampleEtc noFaults sampleFS "/cm/a.profile" "/tmp/x").trace
      = [.stat "/cm/a.profile", .stat "/etc/apparmor.d/custom/a.profile",
          .link "/cm/a.profile" "/etc/apparmor.d/custom/a.profile"] ∧
    (CopyFile sampleEtc noFaults sampleFS "/cm/a.profile" "/tmp/y").trace
      = (CopyFile sampleEtc noFaults sampleFS "/cm/a.profile" "/tmp/x").trace ∧
    (CopyFile sampleEtc noFaults sampleFS "/cm/a.profile" "/tmp/x").out = .ret none ∧
    (CopyFile sampleEtc noFaults sampleFS "/cm/a.profile" "/tmp/x").fs.names
      "/tmp/x/a.profile" = none := by
  refine ⟨by decide, by decide, rfl, by decide, by decide⟩

/-! ## `HasTheSameContent`: the loop over the listing -/

theorem scanDir_fst_of_not_mem (p1 p2 : String) (dir : List DirEntry)
    (f1 f2 : Option FileInfo) (h : p1 ∉ dir.map DirEntry.name) :
    (scanDir p1 p2 dir (f1, f2)).1 = f1 := by
  induction dir generalizing f1 f2 with
  | nil => rfl
  | cons e rest ih =>
    simp only [List.map_cons, List.mem_cons, not_or] at h
    simp only [scanDir, if_neg h.1]
    split
    · exact ih _ _ h.2
    · exact ih _ _ h.2

theorem scanDir_snd_of_not_mem (p1 p2 : String) (dir : List DirEntry)
    (f1 f2 : Option FileInfo) (h : p2 ∉ dir.map DirEntry.name) :
    (scanDir p1 p2 dir (f1, f2)).2 = f2 := by
  induction dir generalizing f1 f2 with
  | nil => rfl
  | cons e rest ih =>
    simp only [List.map_cons, List.mem_cons, not_or] at h
    simp only [scanDir, if_neg h.1]
    split
    · exact ih _ _ h.2
    · exact ih _ _ h.2

theorem scanDir_snd_of_same (p : String) (dir : List DirEntry) (f1 f2 : Option FileInfo) :
    (scanDir p p dir (f1, f2)).2 = f2 := by
  induction dir generalizing f1 f2 with
  | nil => rfl
  | cons e rest ih =>
    simp only [scanDir]
    split
    · exact ih _ _
    · exact ih _ _

theorem scanDir_fst_of_mem (p1 p2 : String) (dir : List DirEntry)
    (f1 f2 : Option FileInfo) (e : DirEntry) (hnodup : (dir.map DirEntry.name).Nodup)
    (he : e ∈ dir) (hname : e.name = p1) :
    (scanDir p1 p2 dir (f1, f2)).1 = e.info := by
  induction dir generalizing f1 f2 with
  | nil => cases he
  | cons d rest ih =>
    simp only [List.map_cons, List.nodup_cons] at hnodup
    rcases List.mem_cons.1 he with hd | hr
    · subst hd
      simp only [scanDir, hname, if_true]
      exact scanDir_fst_of_not_mem _ _ _ _ _ (hname ▸ hnodup.1)
    · have hne : p1 ≠ d.name := by
        intro heq
        exact hnodup.1 (heq ▸ hname ▸ List.mem_map_of_mem DirEntry.name hr)
      simp only [scanDir, if_neg hne]
      split
      · exact ih _ _ hnodup.2 hr
      · exact ih _ _ hnodup.2 hr

theorem scanDir_snd_of_mem (p1 p2 : String) (dir : List DirEntry)
    (f1 f2 : Option FileInfo) (e : DirEntry) (hnodup : (dir.map DirEntry.name).Nodup)
    (he : e ∈ dir) (hname : e.name = p2) (hdiff : p1 ≠ p2) :
    (scanDir p1 p2 dir (f1, f2)).2 = e.info := by
  induction dir generalizing f1 f2 with
  | nil => cases he
  | cons d rest ih =>
    simp only [List.map_cons, List.nodup_cons] at hnodup
    rcases List.mem_cons.1 he with hd | hr
    · subst hd
      subst hname
      simp only [scanDir, if_neg hdiff, if_true]
      exact scanDir_snd_of_not_mem _ _ _ _ _ hnodup.1
    · have hne : p2 ≠ d.name := by
        intro heq
        exact hnodup.1 (heq ▸ hname ▸ List.mem_map_of_mem DirEntry.name hr)
      simp only [scanDir, if_neg hne]
      split
      · exact ih _ _ hnodup.2 hr
      · exact ih _ _ hnodup.2 hr

/-- The loop started with both variables nil, on a listing without repeated names
that holds an entry for each of two distinct names. -/
theorem scanDir_of_listed (p1 p2 : String) (dir : List DirEntry) (e1 e2 : DirEntry)
    (hnodup : (dir.map DirEntry.name).Nodup) (h1 : e1 ∈ dir) (h2 : e2 ∈ dir)
    (hn1 : e1.name = p1) (hn2 : e2.name = p2) (hdiff : p1 ≠ p2) :
    scanDir p1 p2 dir (none, none) = (e1.info, e2.info) := by
  have ha := scanDir_fst_of_mem p1 p2 dir none none e1 hnodup h1 hn1
  have hb := scanDir_snd_of_mem p1 p2 dir none none e2 hnodup h2 hn2 hdiff
  exact Prod.ext ha hb

/-! ## `HasTheSameContent`: names missing from the listing -/

/-- C7: when the root listing succeeds and at least one of the two names does not
occur among the names of its entries, `HasTheSameContent` returns `false` with the
"files not found" error, and it opens no entry: the listing is the only call made. -/
theorem HasTheSameContent_not_found (env : Faults) (os : FS) (fsys : FSys)
    (dir : List DirEntry) (filePath1 filePath2 : String)
    (hdir : fsys.readDir = .ok dir)
    (h : filePath1 ∉ dir.map DirEntry.name ∨ filePath2 ∉ dir.map DirEntry.name) :
    (HasTheSameContent env os (some fsys) filePath1 filePath2).1
      = .ret (false, some .filesNotFound) ∧
    (HasTheSameContent env os (some fsys) filePath1 filePath2).2 = [.readDir] ∧
    ∀ n, Call.fsOpen n ∉ (HasTheSameContent env os (some fsys) filePath1 filePath2).2 := by
  have key : (scanDir filePath1 filePath2 dir (none, none)).1 = none ∨
      (scanDir filePath1 filePath2 dir (none, none)).2 = none := by
    rcases h with h | h
    · exact Or.inl (scanDir_fst_of_not_mem _ _ _ _ _ h)
    · exact Or.inr (scanDir_snd_of_not_mem _ _ _ _ _ h)
  have hrun : HasTheSameContent env os (some fsys) filePath1 filePath2
      = (.ret (false, some .filesNotFound), [.readDir]) := by
    unfold HasTheSameContent
    simp only [hdir]
    rcases hs : scanDir filePath1 filePath2 dir (none, none) with ⟨_ | a, _ | b⟩
    · rfl
    · rfl
    · rfl
    · rw [hs] at key
      simp at key
  rw [hrun]
  simp

/-- Witness of C7: the name `z` is not in the listing of the sample abstract file
system. -/
theorem HasTheSameContent_not_found_witness :
    (HasTheSameContent noFaults sampleFS (some sampleFSys) "a" "z").1
      = .ret (false, some .filesNotFound) :=
  (HasTheSameContent_not_found noFaults sampleFS sampleFSys
    [⟨"a", some ⟨"a", 10⟩⟩, ⟨"b", some ⟨"b", 10⟩⟩, ⟨"c", some ⟨"c", 3⟩⟩] "a" "z" rfl
    (Or.inr (by decide))).1

/-! ## `HasTheSameContent`: a file compared with itself -/

/-- C10 (the code at the failing input): in the sample abstract file system the name
`a` is listed, can be opened and read, and `HasTheSameContent(fsys, "a", "a")` returns
`false` with the "files not found" error, having opened nothing. -/
theorem HasTheSameContent_same_name_sample :
    "a" ∈ [⟨"a", some ⟨"a", 10⟩⟩, ⟨"b", some ⟨"b", 10⟩⟩,
      (⟨"c", some ⟨"c", 3⟩⟩ : DirEntry)].map DirEntry.name ∧
    sampleFSys.readDir
      = .ok [⟨"a", some ⟨"a", 10⟩⟩, ⟨"b", some ⟨"b", 10⟩⟩, ⟨"c", some ⟨"c", 3⟩⟩] ∧
    (∃ f, sampleFSys.openFile "a" = .ok f ∧ f.readAll = .ok (ascii "0123456789")) ∧
    HasTheSameContent noFaults sampleFS (some sampleFSys) "a" "a"
      = (.ret (false, some .filesNotFound), [.readDir]) := by
  refine ⟨by decide, rfl, ⟨⟨.ok (ascii "0123456789")⟩, by simp [sampleFSys], rfl⟩, by decide⟩

/-! ## `HasTheSameContent`: sizes and bytes -/

/-- The run on an abstract file system whose loop found both entries. -/
theorem HasTheSameContent_of_scan (env : Faults) (os : FS) (fsys : FSys)
    (dir : List DirEntry) (filePath1 filePath2 : String) (file1 file2 : FileInfo)
    (hdir : fsys.readDir = .ok dir)
    (hscan : scanDir filePath1 filePath2 dir (none, none) = (some file1, some file2)) :
    HasTheSameContent env os (some fsys) filePath1 filePath2 =
      if file1.size ≠ file2.size then (.ret (false, none), [.readDir])
      else
        match fsys.openFile file1.name with
        | .error err => (.ret (false, some err), [.readDir, .fsOpen file1.name])
        | .ok f1 =>
          match fsys.openFile file2.name with
          | .error err =>
            (.ret (false, some err),
              [.readDir, .fsOpen file1.name, .fsOpen file2.name, .fsClose file1.name])
          | .ok f2 =>
            (.ret (compareBytes file1.name file2.name f1 f2).1,
              [.readDir, .fsOpen file1.name, .fsOpen file2.name] ++
                (compareBytes file1.name file2.name f1 f2).2 ++
                [.fsClose file2.name, .fsClose file1.name]) := by
  unfold HasTheSameContent
  simp only [hdir, hscan]

/-- C6: `HasTheSameContent` never reports equal for files of differing size.  On an
abstract file system whose listing (without repeated names) holds both names with
differing sizes, it returns `(false, nil)` and the listing is the only call made,
whatever opening or reading an entry would do; on the operating system's files
(`fsys` nil), for two files that can be read and whose lengths differ, it returns
`(false, nil)`. -/
theorem HasTheSameContent_size_mismatch :
    (∀ (env : Faults) (os : FS) (fsys : FSys) (dir : List DirEntry)
        (filePath1 filePath2 : String) (file1 file2 : FileInfo),
        fsys.readDir = .ok dir → (dir.map DirEntry.name).Nodup →
        ⟨filePath1, some file1⟩ ∈ dir → ⟨filePath2, some file2⟩ ∈ dir →
        file1.size ≠ file2.size →
        HasTheSameContent env os (some fsys) filePath1 filePath2
          = (.ret (false, none), [.readDir])) ∧
    (∀ (env : Faults) (os : FS) (filePath1 filePath2 : String) (fileBytes1 fileBytes2 : Bytes),
        osReadFile env os filePath1 = .ok fileBytes1 →
        osReadFile env os filePath2 = .ok fileBytes2 →
        fileBytes1.length ≠ fileBytes2.length →
        (HasTheSameContent env os none filePath1 filePath2).1 = .ret (false, none)) := by
  constructor
  · intro env os fsys dir filePath1 filePath2 file1 file2 hdir hnodup h1 h2 hsz
    have hdiff : filePath1 ≠ filePath2 := by
      intro heq
      have := List.inj_on_of_nodup_map hnodup h1 h2 heq
      simp only [DirEntry.mk.injEq, Option.some.injEq] at this
      exact hsz (by rw [this.2])
    have hscan := scanDir_of_listed filePath1 filePath2 dir _ _ hnodup h1 h2 rfl rfl hdiff
    rw [HasTheSameContent_of_scan env os fsys dir filePath1 filePath2 file1 file2 hdir hscan]
    simp [hsz]
  · intro env os filePath1 filePath2 fileBytes1 fileBytes2 hr1 hr2 hlen
    have hne : fileBytes1 ≠ fileBytes2 := fun heq => hlen (by rw [heq])
    simp [HasTheSameContent, hr1, hr2, bytesEqual, hne]

/-- Witness of C6: in the sample abstract file system `a` has 10 bytes and `c`, which
cannot be opened, has 3; among the operating system's sample files, the profile `ABC`
and an empty file differ in length. -/
theorem HasTheSameContent_size_mismatch_witness :
    sampleFSys.openFile "c" = .error (.os .EIOERR) ∧
    HasTheSameContent noFaults sampleFS (some sampleFSys) "a" "c"
      = (.ret (false, none), [.readDir]) ∧
    (HasTheSameContent noFaults sampleFS2 none "/cm/a.profile" "/cm/b.profile").1
      = .ret (false, none) :=
  ⟨by simp [sampleFSys],
    HasTheSameContent_size_mismatch.1 noFaults sampleFS sampleFSys
      [⟨"a", some ⟨"a", 10⟩⟩, ⟨"b", some ⟨"b", 10⟩⟩, ⟨"c", some ⟨"c", 3⟩⟩] "a" "c"
      ⟨"a", 10⟩ ⟨"c", 3⟩ rfl (by decide) (by decide) (by decide) (by decide),
    HasTheSameContent_size_mismatch.2 noFaults sampleFS2 "/cm/a.profile" "/cm/b.profile"
      (ascii "ABC") [] (by simp [osReadFile, osOpen, resolve, follow, sampleFS2, sampleFS, noFaults])
      (by simp [osReadFile, osOpen, resolve, follow, sampleFS2, sampleFS, noFaults]) (by decide)⟩

/-- C8: on an abstract file system whose listing (without repeated names) holds two
distinct names with equal sizes, and whose two entries can be opened and read in
full, `HasTheSameContent` returns `(b, nil)` with `b` true exactly when the two byte
sequences are equal; two files of 10 bytes that differ in the last byte only give
`(false, nil)`; on the operating system's files (`fsys` nil) the same equation holds
for two files that can be read. -/
theorem HasTheSameContent_compares_bytes :
    (∀ (env : Faults) (os : FS) (fsys : FSys) (dir : List DirEntry)
        (filePath1 filePath2 : String) (size : Nat) (f1 f2 : File) (data1 data2 : Bytes),
        fsys.readDir = .ok dir → (dir.map DirEntry.name).Nodup →
        filePath1 ≠ filePath2 →
        ⟨filePath1, some ⟨filePath1, size⟩⟩ ∈ dir →
        ⟨filePath2, some ⟨filePath2, size⟩⟩ ∈ dir →
        fsys.openFile filePath1 = .ok f1 → fsys.openFile filePath2 = .ok f2 →
        f1.readAll = .ok data1 → f2.readAll = .ok data2 →
        (HasTheSameContent env os (some fsys) filePath1 filePath2).1
          = .ret (decide (data1 = data2), none)) ∧
    (HasTheSameContent noFaults sampleFS (some sampleFSys) "a" "b").1 = .ret (false, none) ∧
    (∀ (env : Faults) (os : FS) (filePath1 filePath2 : String) (fileBytes1 fileBytes2 : Bytes),
        osReadFile env os filePath1 = .ok fileBytes1 →
        osReadFile env os filePath2 = .ok fileBytes2 →
        (HasTheSameContent env os none filePath1 filePath2).1
          = .ret (decide (fileBytes1 = fileBytes2), none)) := by
  refine ⟨?_, by decide, ?_⟩
  · intro env os fsys dir filePath1 filePath2 size f1 f2 data1 data2 hdir hnodup hdiff
      h1 h2 ho1 ho2 hr1 hr2
    have hscan := scanDir_of_listed filePath1 filePath2 dir _ _ hnodup h1 h2 rfl rfl hdiff
    rw [HasTheSameContent_of_scan env os fsys dir filePath1 filePath2 _ _ hdir hscan]
    by_cases heq : data1 = data2 <;>
      simp [ho1, ho2, compareBytes, hr1, hr2, bytesEqual, heq]
  · intro env os filePath1 filePath2 fileBytes1 fileBytes2 hr1 hr2
    by_cases heq : fileBytes1 = fileBytes2 <;>
      simp [HasTheSameContent, hr1, hr2, bytesEqual, heq]

/-- Witness of C8: the two files of 10 bytes of the sample abstract file system, and
the sample profile read twice from the operating system. -/
theorem HasTheSameContent_compares_bytes_witness :
    (HasTheSameContent noFaults sampleFS (some sampleFSys) "a" "b").1
      = .ret (decide (ascii "0123456789" = ascii "012345678X"), none) ∧
    (HasTheSameContent noFaults sampleFS none "/cm/a.profile" "/cm/a.profile").1
      = .ret (decide (ascii "ABC" = ascii "ABC"), none) :=
  ⟨HasTheSameContent_compares_bytes.1 noFaults sampleFS sampleFSys
      [⟨"a", some ⟨"a", 10⟩⟩, ⟨"b", some ⟨"b", 10⟩⟩, ⟨"c", some ⟨"c", 3⟩⟩] "a" "b" 10
      ⟨.ok (ascii "0123456789")⟩ ⟨.ok (ascii "012345678X")⟩ _ _
      rfl (by decide) (by decide) (by decide) (by decide) (by simp [sampleFSys])
      (by simp [sampleFSys]) rfl rfl,
    HasTheSameContent_compares_bytes.2.2 noFaults sampleFS "/cm/a.profile" "/cm/a.profile"
      (ascii "ABC") (ascii "ABC") (by simp [osReadFile, osOpen, resolve, follow, sampleFS, noFaults])
      (by simp [osReadFile, osOpen, resolve, follow, sampleFS, noFaults])⟩

/-! ## `copyFileContents` -/

/-- The inode a path resolves to is the one the path reached names. -/
theorem follow_names_last (fs : FS) (n : Nat) (p q : String) (i : Nat)
    (h : follow n fs p = .ok (q, some i)) : fs.names q = some i := by
  induction n generalizing p with
  | zero => simp [follow] at h
  | succ n ih =>
    cases hn : fs.names p with
    | none => simp [follow, hn] at h
    | some j =>
      cases hk : (fs.inodes j).kind with
      | symlink t =>
        simp only [follow, hn, hk] at h
        exact ih _ h
      | regular =>
        simp only [follow, hn, hk, Except.ok.injEq, Prod.mk.injEq, Option.some.injEq] at h
        rw [← h.1, ← h.2]
        exact hn
      | directory =>
        simp only [follow, hn, hk, Except.ok.injEq, Prod.mk.injEq, Option.some.injEq] at h
        rw [← h.1, ← h.2]
        exact hn
      | special =>
        simp only [follow, hn, hk, Except.ok.injEq, Prod.mk.injEq, Option.some.injEq] at h
        rw [← h.1, ← h.2]
        exact hn

/-- The path at which resolution finds nothing names nothing. -/
theorem follow_names_missing (fs : FS) (n : Nat) (p q : String)
    (h : follow n fs p = .ok (q, none)) : fs.names q = none := by
  induction n generalizing p with
  | zero => simp [follow] at h
  | succ n ih =>
    cases hn : fs.names p with
    | none =>
      simp only [follow, hn, Except.ok.injEq, Prod.mk.injEq, and_true] at h
      rw [← h]
      exact hn
    | some j =>
      cases hk : (fs.inodes j).kind with
      | symlink t =>
        simp only [follow, hn, hk] at h
        exact ih _ h
      | regular => simp [follow, hn, hk] at h
      | directory => simp [follow, hn, hk] at h
      | special => simp [follow, hn, hk] at h

/-- In a well-formed state the inode of an existing file is not the next unused one. -/
theorem FS.WF.ne_next {fs : FS} (hwf : fs.WF) {p : String} {i : Nat}
    (h : fs.names p = some i) : i ≠ fs.next :=
  Nat.ne_of_lt (hwf p i h)

/-- A successful `copyFileContents` from a path that leads to the regular file `i` to
a path that does not lead to `i`: the calls made, and how the state changes.  The
destination is the regular file `j` the path led to, or a new one at the path
reached. -/
theorem copyFileContents_success_raw (env : Faults) (fs : FS) (src dst ps : String) (i : Nat)
    (hsrc : resolve fs src = .ok (ps, some i)) (hreg : (fs.inodes i).kind = .regular)
    (hdst : ∀ q, resolve fs dst ≠ .ok (q, some i)) (hfresh : i ≠ fs.next)
    (h : (copyFileContents env fs src dst).out = .ret none) :
    (copyFileContents env fs src dst).trace
      = [.osOpen src, .osCreate dst, .ioCopy, .sync, .close dst, .close src] ∧
    ∃ q j, j ≠ i ∧
      (copyFileContents env fs src dst).fs.inodes j = ⟨.regular, (fs.inodes i).data⟩ ∧
      (∀ k, k ≠ j → (copyFileContents env fs src dst).fs.inodes k = fs.inodes k) ∧
      ((resolve fs dst = .ok (q, some j) ∧ (fs.inodes j).kind = .regular ∧
          (copyFileContents env fs src dst).fs.names = fs.names) ∨
        (resolve fs dst = .ok (q, none) ∧ j = fs.next ∧
          (copyFileContents env fs src dst).fs.names
            = fun r => if r = q then some j else fs.names r)) := by
  cases ho : env.openErr src with
  | some e => simp [copyFileContents, osOpen, hsrc, ho] at h
  | none =>
    cases hc : env.createErr dst with
    | some e => simp [copyFileContents, osOpen, osCreate, hsrc, ho, hc] at h
    | none =>
      rcases hm : resolve fs dst with e | ⟨q, _ | j⟩
      · simp [copyFileContents, osOpen, osCreate, hsrc, ho, hc, hm] at h
      · have hni : fs.next ≠ i := fun heq => hfresh heq.symm
        cases hcp : env.copyErr with
        | some ke =>
          simp [copyFileContents, osOpen, osCreate, ioCopy, hsrc, ho, hc, hm, hcp,
            hfresh, hreg] at h
        | none =>
          refine ⟨?_, q, fs.next, hni, ?_, ?_, Or.inr ⟨rfl, rfl, ?_⟩⟩
          · simp [copyFileContents, osOpen, osCreate, ioCopy, hsrc, ho, hc, hm, hcp,
              hfresh, hreg]
          · simp [copyFileContents, osOpen, osCreate, ioCopy, FS.write, hsrc, ho, hc, hm,
              hcp, hfresh, hreg]
          · intro k hk
            simp [copyFileContents, osOpen, osCreate, ioCopy, FS.write, hsrc, ho, hc, hm,
              hcp, hfresh, hreg, hk]
          · simp [copyFileContents, osOpen, osCreate, ioCopy, FS.write, hsrc, ho, hc, hm,
              hcp, hfresh, hreg]
      · have hji : j ≠ i := by
          intro heq
          exact hdst q (heq ▸ hm)
        have hij : i ≠ j := fun heq => hji heq.symm
        cases hk : (fs.inodes j).kind with
        | directory => simp [copyFileContents, osOpen, osCreate, hsrc, ho, hc, hm, hk] at h
        | special => simp [copyFileContents, osOpen, osCreate, hsrc, ho, hc, hm, hk] at h
        | symlink t => simp [copyFileContents, osOpen, osCreate, hsrc, ho, hc, hm, hk] at h
        | regular =>
          cases hcp : env.copyErr with
          | some ke =>
            simp [copyFileContents, osOpen, osCreate, ioCopy, hsrc, ho, hc, hm, hk, hcp,
              hij, hreg] at h
          | none =>
            refine ⟨?_, q, j, hji, ?_, ?_, Or.inl ⟨rfl, hk, ?_⟩⟩
            · simp [copyFileContents, osOpen, osCreate, ioCopy, hsrc, ho, hc, hm, hk, hcp,
                hij, hreg]
            · simp [copyFileContents, osOpen, osCreate, ioCopy, FS.write, hsrc, ho, hc, hm,
                hk, hcp, hij, hreg]
            · intro k hkj
              simp [copyFileContents, osOpen, osCreate, ioCopy, FS.write, hsrc, ho, hc, hm,
                hk, hcp, hij, hreg, hkj]
            · simp [copyFileContents, osOpen, osCreate, ioCopy, FS.write, hsrc, ho, hc, hm,
                hk, hcp, hij, hreg]

/-- A successful `copyFileContents` on a well-formed state, from a path that leads to
the regular file `i` to a path that does not lead to `i`: afterwards the source still
leads to `i`, unchanged, and the destination leads to another regular file, which
holds the bytes of `i`. -/
theorem copyFileContents_success (env : Faults) (fs : FS) (src dst ps : String) (i : Nat)
    (hwf : fs.WF)
    (hsrc : resolve fs src = .ok (ps, some i)) (hreg : (fs.inodes i).kind = .regular)
    (hdst : ∀ q, resolve fs dst ≠ .ok (q, some i))
    (h : (copyFileContents env fs src dst).out = .ret none) :
    (copyFileContents env fs src dst).trace
      = [.osOpen src, .osCreate dst, .ioCopy, .sync, .close dst, .close src] ∧
    resolve (copyFileContents env fs src dst).fs src = .ok (ps, some i) ∧
    (copyFileContents env fs src dst).fs.inodes i = fs.inodes i ∧
    ∃ q j, resolve (copyFileContents env fs src dst).fs dst = .ok (q, some j) ∧ j ≠ i ∧
      (copyFileContents env fs src dst).fs.inodes j = ⟨.regular, (fs.inodes i).data⟩ := by
  have hfresh : i ≠ fs.next := hwf.ne_next (follow_names_last fs _ src ps i hsrc)
  obtain ⟨htr, q, j, hji, hj, hother, hcase⟩ :=
    copyFileContents_success_raw env fs src dst ps i hsrc hreg hdst hfresh h
  have hij : i ≠ j := fun heq => hji heq.symm
  rcases hcase with ⟨hres, hkj, hnames⟩ | ⟨hres, hjn, hnames⟩
  · have hframe : ∀ p k, fs.names p = some k →
        (copyFileContents env fs src dst).fs.names p = some k ∧
        ((copyFileContents env fs src dst).fs.inodes k).kind = (fs.inodes k).kind := by
      intro p k hpk
      refine ⟨by rw [hnames]; exact hpk, ?_⟩
      by_cases hkeq : k = j
      · rw [hkeq, hj, hkj]
      · rw [hother k hkeq]
    exact ⟨htr, follow_frame fs _ hframe _ src ps i hsrc, hother i hij, q, j,
      follow_frame fs _ hframe _ dst q j hres, hji, hj⟩
  · have hqnone : fs.names q = none := follow_names_missing fs _ dst q hres
    have hframe : ∀ p k, fs.names p = some k →
        (copyFileContents env fs src dst).fs.names p = some k ∧
        ((copyFileContents env fs src dst).fs.inodes k).kind = (fs.inodes k).kind := by
      intro p k hpk
      have hpq : p ≠ q := by
        intro heq
        rw [heq, hqnone] at hpk
        cases hpk
      have hkj : k ≠ j := by
        rw [hjn]
        exact hwf.ne_next hpk
      refine ⟨by rw [hnames]; simp [hpq, hpk], by rw [hother k hkj]⟩
    have hq : (copyFileContents env fs src dst).fs.names q = some j := by
      rw [hnames]
      simp
    have hkind : ((copyFileContents env fs src dst).fs.inodes j).kind = .regular := by
      rw [hj]
    exact ⟨htr, follow_frame fs _ hframe _ src ps i hsrc, hother i hij, q, j,
      follow_created fs _ hframe q j hq hkind _ dst hres, hji, hj⟩

/-! ## `CopyFile`: the three ways to succeed -/

/-- A successful `os.Link` gives the inode named by the old path a second name, the new
path, which named nothing. -/
theorem osLink_ok (env : Faults) (fs fs1 : FS) (old new : String)
    (h : osLink env fs old new = .ok fs1) :
    ∃ s, fs.names old = some s ∧ fs.names new = none ∧
      fs1 = { fs with names := fun q => if q = new then some s else fs.names q } := by
  unfold osLink at h
  cases hn : fs.names old with
  | none => simp [hn] at h
  | some s =>
    cases hm : fs.names new with
    | some j => simp [hn, hm] at h
    | none =>
      simp only [hn, hm] at h
      split_ifs at h
      cases hl : env.linkErr with
      | some e => simp [hl] at h
      | none =>
        simp only [hl, Except.ok.injEq] at h
        exact ⟨s, rfl, rfl, h.symm⟩

/-- The call `os.Link` fails when the new path names something. -/
theorem osLink_exists (env : Faults) (fs : FS) (old new : String) (m : Nat)
    (h : fs.names new = some m) : ∃ e, osLink env fs old new = .error e := by
  unfold osLink
  cases hn : fs.names old with
  | none => exact ⟨_, rfl⟩
  | some s => exact ⟨.EEXIST, by simp [h]⟩

/-- A successful `CopyFile` has a source that leads to a regular file, and ended in one
of three ways: the destination already led to the same inode; the hard link was
created, giving the entry at the source path a second name; or `copyFileContents` ran
and returned nil. -/
theorem CopyFile_success_cases (ETC_APPARMORD : String) (env : Faults) (fs : FS)
    (src dst : String) (h : (CopyFile ETC_APPARMORD env fs src dst).out = .ret none) :
    ∃ ps i, resolve fs src = .ok (ps, some i) ∧ (fs.inodes i).kind = .regular ∧
      (((∃ q, resolve fs (dstCompleteFileName ETC_APPARMORD src) = .ok (q, some i)) ∧
          (CopyFile ETC_APPARMORD env fs src dst).fs = fs ∧
          (CopyFile ETC_APPARMORD env fs src dst).trace
            = [.stat src, .stat (dstCompleteFileName ETC_APPARMORD src)]) ∨
        (fs.names (dstCompleteFileName ETC_APPARMORD src) = none ∧
          (∃ s, fs.names src = some s ∧
            (CopyFile ETC_APPARMORD env fs src dst).fs =
              { fs with names := fun q =>
                  if q = dstCompleteFileName ETC_APPARMORD src then some s else fs.names q }) ∧
          (CopyFile ETC_APPARMORD env fs src dst).trace
            = [.stat src, .stat (dstCompleteFileName ETC_APPARMORD src),
                .link src (dstCompleteFileName ETC_APPARMORD src)]) ∨
        ((∀ q, resolve fs (dstCompleteFileName ETC_APPARMORD src) ≠ .ok (q, some i)) ∧
          (copyFileContents env fs src (dstCompleteFileName ETC_APPARMORD src)).out
            = .ret none ∧
          (CopyFile ETC_APPARMORD env fs src dst).fs
            = (copyFileContents env fs src (dstCompleteFileName ETC_APPARMORD src)).fs ∧
          (CopyFile ETC_APPARMORD env fs src dst).trace
            = [.stat src, .stat (dstCompleteFileName ETC_APPARMORD src),
                .link src (dstCompleteFileName ETC_APPARMORD src)] ++
              (copyFileContents env fs src (dstCompleteFileName ETC_APPARMORD src)).trace)) := by
  have hlc : ∀ pre i,
      (linkOrCopy env fs src (dstCompleteFileName ETC_APPARMORD src) pre).out = .ret none →
      (∀ q, resolve fs (dstCompleteFileName ETC_APPARMORD src) ≠ .ok (q, some i)) →
      (fs.names (dstCompleteFileName ETC_APPARMORD src) = none ∧
        (∃ s, fs.names src = some s ∧
          (linkOrCopy env fs src (dstCompleteFileName ETC_APPARMORD src) pre).fs =
            { fs with names := fun q =>
                if q = dstCompleteFileName ETC_APPARMORD src then some s else fs.names q }) ∧
        (linkOrCopy env fs src (dstCompleteFileName ETC_APPARMORD src) pre).trace
          = pre ++ [.link src (dstCompleteFileName ETC_APPARMORD src)]) ∨
      ((∀ q, resolve fs (dstCompleteFileName ETC_APPARMORD src) ≠ .ok (q, some i)) ∧
        (copyFileContents env fs src (dstCompleteFileName ETC_APPARMORD src)).out
          = .ret none ∧
        (linkOrCopy env fs src (dstCompleteFileName ETC_APPARMORD src) pre).fs
          = (copyFileContents env fs src (dstCompleteFileName ETC_APPARMORD src)).fs ∧
        (linkOrCopy env fs src (dstCompleteFileName ETC_APPARMORD src) pre).trace
          = pre ++ [.link src (dstCompleteFileName ETC_APPARMORD src)] ++
            (copyFileContents env fs src (dstCompleteFileName ETC_APPARMORD src)).trace) := by
    intro pre i hout hne
    rcases hl : osLink env fs src (dstCompleteFileName ETC_APPARMORD src) with e | fs1
    · refine Or.inr ⟨hne, ?_, ?_, ?_⟩
      · simpa [linkOrCopy, hl] using hout
      · simp [linkOrCopy, hl]
      · simp [linkOrCopy, hl]
    · obtain ⟨s, hs, hd, hfs1⟩ := osLink_ok env fs fs1 src _ hl
      refine Or.inl ⟨hd, ⟨s, hs, ?_⟩, ?_⟩
      · simp [linkOrCopy, hl, hfs1]
      · simp [linkOrCopy, hl]
  rcases hr : resolve fs src with e | ⟨ps, _ | i⟩
  · simp [CopyFile, osStat, hr] at h
  · simp [CopyFile, osStat, hr] at h
  · by_cases hreg : (fs.inodes i).kind = .regular
    · refine ⟨ps, i, rfl, hreg, ?_⟩
      rcases hm : resolve fs (dstCompleteFileName ETC_APPARMORD src) with e | ⟨q, _ | j⟩
      · have hne : ∀ q, resolve fs (dstCompleteFileName ETC_APPARMORD src)
            ≠ .ok (q, some i) := by
          intro q heq
          rw [hm] at heq
          cases heq
        have hrun : CopyFile ETC_APPARMORD env fs src dst
            = linkOrCopy env fs src (dstCompleteFileName ETC_APPARMORD src)
                [.stat src, .stat (dstCompleteFileName ETC_APPARMORD src)] := by
          simp [CopyFile, osStat, hr, hm, hreg, FileKind.IsRegular]
        rw [hrun] at h ⊢
        rw [← hm]
        exact Or.inr (hlc _ i h hne)
      · have hne : ∀ r, resolve fs (dstCompleteFileName ETC_APPARMORD src)
            ≠ .ok (r, some i) := by
          intro r heq
          rw [hm] at heq
          cases heq
        have hrun : CopyFile ETC_APPARMORD env fs src dst
            = linkOrCopy env fs src (dstCompleteFileName ETC_APPARMORD src)
                [.stat src, .stat (dstCompleteFileName ETC_APPARMORD src)] := by
          simp [CopyFile, osStat, hr, hm, hreg, FileKind.IsRegular]
        rw [hrun] at h ⊢
        rw [← hm]
        exact Or.inr (hlc _ i h hne)
      · by_cases hk : (fs.inodes j).kind = .regular
        · by_cases hij : i = j
          · refine Or.inl ⟨⟨q, by rw [hij]⟩, ?_, ?_⟩
            · simp [CopyFile, osStat, osSameFile, hr, hm, hreg, hk, hij, FileKind.IsRegular]
            · simp [CopyFile, osStat, osSameFile, hr, hm, hreg, hk, hij, FileKind.IsRegular]
          · have hne : ∀ r, resolve fs (dstCompleteFileName ETC_APPARMORD src)
                ≠ .ok (r, some i) := by
              intro r heq
              rw [hm] at heq
              simp only [Except.ok.injEq, Prod.mk.injEq, Option.some.injEq] at heq
              exact hij heq.2.symm
            have hrun : CopyFile ETC_APPARMORD env fs src dst
                = linkOrCopy env fs src (dstCompleteFileName ETC_APPARMORD src)
                    [.stat src, .stat (dstCompleteFileName ETC_APPARMORD src)] := by
              simp [CopyFile, osStat, osSameFile, hr, hm, hreg, hk, hij, FileKind.IsRegular]
            rw [hrun] at h ⊢
            rw [← hm]
            exact Or.inr (hlc _ i h hne)
        · cases hkk : (fs.inodes j).kind with
          | regular => exact absurd hkk hk
          | directory =>
            simp [CopyFile, osStat, hr, hm, hreg, hkk, FileKind.IsRegular] at h
          | special =>
            simp [CopyFile, osStat, hr, hm, hreg, hkk, FileKind.IsRegular] at h
          | symlink t =>
            simp [CopyFile, osStat, hr, hm, hreg, hkk, FileKind.IsRegular] at h
    · cases hkk : (fs.inodes i).kind with
      | regular => exact absurd hkk hreg
      | directory => simp [CopyFile, osStat, hr, hkk, FileKind.IsRegular] at h
      | special => simp [CopyFile, osStat, hr, hkk, FileKind.IsRegular] at h
      | symlink t => simp [CopyFile, osStat, hr, hkk, FileKind.IsRegular] at h

/-! ## Well-formedness is kept -/

theorem osCreate_WF (env : Faults) (fs fs1 : FS) (p : String) (out : Nat) (hwf : fs.WF)
    (h : osCreate env fs p = .ok (out, fs1)) : fs1.WF := by
  unfold osCreate at h
  cases hc : env.createErr p with
  | some e => simp [hc] at h
  | none =>
    rcases hm : resolve fs p with e | ⟨r, _ | j⟩
    · simp [hc, hm] at h
    · simp [hc, hm] at h
      rw [← h.2]
      intro q k hq
      simp only at hq
      split_ifs at hq with hqp
      · cases hq
        exact Nat.lt_succ_self _
      · exact Nat.lt_succ_of_lt (hwf q k hq)
    · cases hk : (fs.inodes j).kind with
      | regular =>
        simp [hc, hm, hk] at h
        rw [← h.2]
        exact hwf
      | directory => simp [hc, hm, hk] at h
      | special => simp [hc, hm, hk] at h
      | symlink t => simp [hc, hm, hk] at h

theorem ioCopy_WF (env : Faults) (fs : FS) (out inp : Nat) (hwf : fs.WF) :
    (ioCopy env fs out inp).1.WF := by
  unfold ioCopy
  split
  · exact hwf
  · split
    · exact hwf
    · exact hwf

theorem copyFileContents_WF (env : Faults) (fs : FS) (src dst : String) (hwf : fs.WF) :
    (copyFileContents env fs src dst).fs.WF := by
  unfold copyFileContents
  split
  · exact hwf
  · split
    · exact hwf
    · rename_i inp _ _ out fs1 hcreate
      have h1 := osCreate_WF env fs fs1 dst out hwf hcreate
      have h2 := ioCopy_WF env fs1 out inp h1
      split
      · rename_i heq
        rw [heq] at h2
        exact h2
      · rename_i heq
        rw [heq] at h2
        exact h2

theorem osLink_WF (env : Faults) (fs fs1 : FS) (old new : String) (hwf : fs.WF)
    (h : osLink env fs old new = .ok fs1) : fs1.WF := by
  unfold osLink at h
  cases hn : fs.names old with
  | none => simp [hn] at h
  | some i =>
    cases hm : fs.names new with
    | some j => simp [hn, hm] at h
    | none =>
      simp only [hn, hm] at h
      split_ifs at h
      cases hl : env.linkErr with
      | some e => simp [hl] at h
      | none =>
        simp [hl] at h
        rw [← h]
        intro q k hq
        simp only at hq
        split_ifs at hq
        · cases hq
          exact hwf old i hn
        · exact hwf q k hq

/-- Every run of `CopyFile` from a well-formed state ends in a well-formed state. -/
theorem CopyFile_WF (ETC_APPARMORD : String) (env : Faults) (fs : FS) (src dst : String)
    (hwf : fs.WF) : (CopyFile ETC_APPARMORD env fs src dst).fs.WF := by
  have hlc : ∀ pre, (linkOrCopy env fs src (dstCompleteFileName ETC_APPARMORD src) pre).fs.WF := by
    intro pre
    unfold linkOrCopy
    split
    · rename_i fs1 hl
      exact osLink_WF env fs fs1 src _ hwf hl
    · exact copyFileContents_WF env fs src _ hwf
  unfold CopyFile
  simp only
  split
  · exact hwf
  · split
    · exact hwf
    · split
      · exact hlc _
      · split
        · exact hwf
        · split
          · exact hwf
          · exact hlc _

/-- The sample file system is well formed. -/
theorem sampleFS_WF : sampleFS.WF := by
  intro p i h
  simp only [sampleFS] at h
  split_ifs at h <;> simp at h <;> subst h <;> simp [sampleFS]

/-! ## `CopyFile`: a second call -/

/-- The run of `CopyFile` when source and destination lead to the same regular file. -/
theorem CopyFile_same_inode (ETC_APPARMORD : String) (env : Faults) (fs : FS)
    (src dst ps q : String) (i : Nat) (hsrc : resolve fs src = .ok (ps, some i))
    (hreg : (fs.inodes i).kind = .regular)
    (hdst : resolve fs (dstCompleteFileName ETC_APPARMORD src) = .ok (q, some i)) :
    CopyFile ETC_APPARMORD env fs src dst
      = ⟨.ret none, fs, [.stat src, .stat (dstCompleteFileName ETC_APPARMORD src)]⟩ := by
  simp [CopyFile, osStat, osSameFile, hsrc, hdst, hreg, FileKind.IsRegular]

/-- The run of `CopyFile` when the destination leads to another regular file than the
source does: `os.Link` fails and `copyFileContents` runs. -/
theorem CopyFile_other_inode (ETC_APPARMORD : String) (env : Faults) (fs : FS)
    (src dst ps q : String) (i j : Nat) (hsrc : resolve fs src = .ok (ps, some i))
    (hreg : (fs.inodes i).kind = .regular)
    (hdst : resolve fs (dstCompleteFileName ETC_APPARMORD src) = .ok (q, some j))
    (hk : (fs.inodes j).kind = .regular) (hij : i ≠ j) :
    CopyFile ETC_APPARMORD env fs src dst
      = ⟨(copyFileContents env fs src (dstCompleteFileName ETC_APPARMORD src)).out,
          (copyFileContents env fs src (dstCompleteFileName ETC_APPARMORD src)).fs,
          [.stat src, .stat (dstCompleteFileName ETC_APPARMORD src),
            .link src (dstCompleteFileName ETC_APPARMORD src)] ++
          (copyFileContents env fs src (dstCompleteFileName ETC_APPARMORD src)).trace⟩ := by
  cases hn : fs.names (dstCompleteFileName ETC_APPARMORD src) with
  | none => exact absurd hn (follow_names_ne_none fs _ _ q j hdst)
  | some m =>
    obtain ⟨e, he⟩ := osLink_exists env fs src _ m hn
    simp [CopyFile, linkOrCopy, osStat, osSameFile, hsrc, hdst, hreg, hk, hij, he,
      FileKind.IsRegular]

/-- Every run of `copyFileContents` starts by opening the source. -/
theorem copyFileContents_opens_source (env : Faults) (fs : FS) (src dst : String) :
    Call.osOpen src ∈ (copyFileContents env fs src dst).trace := by
  unfold copyFileContents
  split
  · simp
  · split
    · simp
    · split <;> simp

/-! ## `CopyFile`: a source that is a symbolic link -/

/-- C1 (the code at the failing input): in the sample file system with the symbolic
link `/cm/l.profile`, whose target `a.profile` is the regular file holding `ABC`,
`os.Stat` follows the link and reports a regular file, so `CopyFile` goes on to
`os.Link`, which gives the link itself the name `/etc/apparmor.d/custom/l.profile`
(the destination directory joined with the base name of the source), and returns nil;
in the resulting state that path cannot be stat'd (the link dangles there) and holds
no content. -/
theorem CopyFile_symlink_source_sample :
    symlinkFS.isSymlink "/cm/l.profile" = true ∧
    osStat symlinkFS "/cm/l.profile" = .ok ⟨"l.profile", .regular, 0⟩ ∧
    symlinkFS.content "/cm/l.profile" = some (ascii "ABC") ∧
    pathJoin sampleEtc (filepathBase "/cm/l.profile") = "/etc/apparmor.d/custom/l.profile" ∧
    (CopyFile sampleEtc noFaults symlinkFS "/cm/l.profile" sampleEtc).out = .ret none ∧
    (CopyFile sampleEtc noFaults symlinkFS "/cm/l.profile" sampleEtc).trace
      = [.stat "/cm/l.profile", .stat "/etc/apparmor.d/custom/l.profile",
          .link "/cm/l.profile" "/etc/apparmor.d/custom/l.profile"] ∧
    osStat (CopyFile sampleEtc noFaults symlinkFS "/cm/l.profile" sampleEtc).fs
      "/etc/apparmor.d/custom/l.profile" = .error .ENOENT ∧
    (CopyFile sampleEtc noFaults symlinkFS "/cm/l.profile" sampleEtc).fs.content
      "/etc/apparmor.d/custom/l.profile" = none := by
  refine ⟨by decide, rfl, by decide, by decide, by decide, by decide, rfl, by decide⟩

/-- The state a successful `CopyFile` leaves, when the state before is well formed and
no hard link was made of a source that is itself a symbolic link: the destination
leads to a regular file that holds the bytes the source had, and still has. -/
theorem CopyFile_success_state (ETC_APPARMORD : String) (env : Faults) (fs : FS)
    (src dst : String) (hwf : fs.WF)
    (h : (CopyFile ETC_APPARMORD env fs src dst).out = .ret none)
    (hsym : fs.isSymlink src = false ∨
      Call.link src (dstCompleteFileName ETC_APPARMORD src)
        ∉ (CopyFile ETC_APPARMORD env fs src dst).trace) :
    ∃ bytes, fs.content src = some bytes ∧
      (CopyFile ETC_APPARMORD env fs src dst).fs.content
        (dstCompleteFileName ETC_APPARMORD src) = some bytes ∧
      (CopyFile ETC_APPARMORD env fs src dst).fs.content src = some bytes := by
  obtain ⟨ps, i, hsrc, hreg, hcase⟩ := CopyFile_success_cases ETC_APPARMORD env fs src dst h
  have hc0 : fs.content src = some (fs.inodes i).data := by
    simp [FS.content, hsrc, hreg]
  refine ⟨(fs.inodes i).data, hc0, ?_⟩
  rcases hcase with ⟨⟨q, hd⟩, hfs, _⟩ | ⟨hd, ⟨s, hs, hfs⟩, htr⟩ | ⟨hd, hout, hfs, _⟩
  · rw [hfs]
    exact ⟨by simp [FS.content, hd, hreg], hc0⟩
  · have hns : fs.isSymlink src = false := by
      rcases hsym with hsym | hsym
      · exact hsym
      · rw [htr] at hsym
        simp at hsym
    obtain ⟨_, hsi⟩ := resolve_of_not_symlink fs src ps i hns hsrc
    have hne : src ≠ dstCompleteFileName ETC_APPARMORD src := by
      intro heq
      rw [← heq, hsi] at hd
      cases hd
    have hsi2 : s = i := by
      rw [hsi] at hs
      exact (Option.some.inj hs).symm
    rw [hfs, hsi2]
    exact ⟨by simp [FS.content, resolve, follow, hreg],
      by simp [FS.content, resolve, follow, hne, hsi, hreg]⟩
  · obtain ⟨_, hs, hkeep, q, j, hj, _, hnode⟩ :=
      copyFileContents_success env fs src (dstCompleteFileName ETC_APPARMORD src) ps i
        hwf hsrc hreg hd hout
    rw [hfs]
    exact ⟨by simp [FS.content, hj, hnode], by simp [FS.content, hs, hkeep, hreg]⟩

/-- C4 (as stated, refuted): where hard links cannot be created, the first call on the
sample profile succeeds by content copy, and the second call with the same arguments
on the resulting state does not return through the identity check: it calls `os.Link`
and runs `copyFileContents` again, creating (truncating) and rewriting the
destination. -/
theorem CopyFile_second_call_copies_again :
    (CopyFile sampleEtc crossDevice sampleFS "/cm/a.profile" sampleEtc).out = .ret none ∧
    (CopyFile sampleEtc crossDevice
        (CopyFile sampleEtc crossDevice sampleFS "/cm/a.profile" sampleEtc).fs
        "/cm/a.profile" sampleEtc).trace
      = [.stat "/cm/a.profile", .stat "/etc/apparmor.d/custom/a.profile",
          .link "/cm/a.profile" "/etc/apparmor.d/custom/a.profile",
          .osOpen "/cm/a.profile", .osCreate "/etc/apparmor.d/custom/a.profile",
          .ioCopy, .sync, .close "/etc/apparmor.d/custom/a.profile",
          .close "/cm/a.profile"] ∧
    (CopyFile sampleEtc noFaults
        (CopyFile sampleEtc crossDevice sampleFS "/cm/a.profile" sampleEtc).fs
        "/cm/a.profile" sampleEtc).trace
      ≠ [.stat "/cm/a.profile", .stat "/etc/apparmor.d/custom/a.profile"] := by
  refine ⟨by decide, by decide, by decide⟩

/-- C4 (amended): when a first call of `CopyFile` succeeded without running
`copyFileContents`, through the identity check or through a hard link made of a source
that is not itself a symbolic link, a second call with the same arguments on the
resulting state, in any environment, returns nil through the `os.SameFile` check,
having made the two `os.Stat` calls only, and leaves the state (so the destination
content) unchanged.  When the first call, on a well-formed state, succeeded by content
copy, the second call does not return through the identity check: it calls `os.Link`
and runs `copyFileContents` again, and when it returns nil the destination content is
the one the first call left. -/
theorem CopyFile_second_call :
    (∀ (ETC_APPARMORD : String) (env env2 : Faults) (fs : FS) (src dst : String),
        (CopyFile ETC_APPARMORD env fs src dst).out = .ret none →
        Call.osOpen src ∉ (CopyFile ETC_APPARMORD env fs src dst).trace →
        (fs.isSymlink src = false ∨
          Call.link src (dstCompleteFileName ETC_APPARMORD src)
            ∉ (CopyFile ETC_APPARMORD env fs src dst).trace) →
        CopyFile ETC_APPARMORD env2 (CopyFile ETC_APPARMORD env fs src dst).fs src dst
          = ⟨.ret none, (CopyFile ETC_APPARMORD env fs src dst).fs,
              [.stat src, .stat (dstCompleteFileName ETC_APPARMORD src)]⟩) ∧
    (∀ (ETC_APPARMORD : String) (env env2 : Faults) (fs : FS) (src dst : String),
        fs.WF →
        (CopyFile ETC_APPARMORD env fs src dst).out = .ret none →
        Call.osOpen src ∈ (CopyFile ETC_APPARMORD env fs src dst).trace →
        (CopyFile ETC_APPARMORD env2 (CopyFile ETC_APPARMORD env fs src dst).fs src dst).trace
          = [.stat src, .stat (dstCompleteFileName ETC_APPARMORD src),
              .link src (dstCompleteFileName ETC_APPARMORD src)] ++
            (copyFileContents env2 (CopyFile ETC_APPARMORD env fs src dst).fs src
              (dstCompleteFileName ETC_APPARMORD src)).trace ∧
        Call.osOpen src ∈
          (CopyFile ETC_APPARMORD env2 (CopyFile ETC_APPARMORD env fs src dst).fs
            src dst).trace ∧
        ((CopyFile ETC_APPARMORD env2 (CopyFile ETC_APPARMORD env fs src dst).fs
            src dst).out = .ret none →
          (CopyFile ETC_APPARMORD env2 (CopyFile ETC_APPARMORD env fs src dst).fs
            src dst).fs.content (dstCompleteFileName ETC_APPARMORD src)
            = (CopyFile ETC_APPARMORD env fs src dst).fs.content
                (dstCompleteFileName ETC_APPARMORD src))) := by
  constructor
  · intro ETC_APPARMORD env env2 fs src dst h hno hsym
    obtain ⟨ps, i, hsrc, hreg, hcase⟩ := CopyFile_success_cases ETC_APPARMORD env fs src dst h
    rcases hcase with ⟨⟨q, hd⟩, hfs, _⟩ | ⟨hd, ⟨s, hs, hfs⟩, htr⟩ | ⟨hd, hout, _, htr⟩
    · rw [hfs]
      exact CopyFile_same_inode ETC_APPARMORD env2 fs src dst ps q i hsrc hreg hd
    · have hns : fs.isSymlink src = false := by
        rcases hsym with hsym | hsym
        · exact hsym
        · rw [htr] at hsym
          simp at hsym
      obtain ⟨_, hsi⟩ := resolve_of_not_symlink fs src ps i hns hsrc
      have hne : src ≠ dstCompleteFileName ETC_APPARMORD src := by
        intro heq
        rw [← heq, hsi] at hd
        cases hd
      have hsi2 : s = i := by
        rw [hsi] at hs
        exact (Option.some.inj hs).symm
      rw [hfs, hsi2]
      exact CopyFile_same_inode ETC_APPARMORD env2 _ src dst src
        (dstCompleteFileName ETC_APPARMORD src) i
        (by simp [resolve, follow, hne, hsi, hreg]) hreg (by simp [resolve, follow, hreg])
    · exfalso
      apply hno
      rw [htr]
      exact List.mem_append_right _ (copyFileContents_opens_source env fs src _)
  · intro ETC_APPARMORD env env2 fs src dst hwf h hop
    obtain ⟨ps, i, hsrc, hreg, hcase⟩ := CopyFile_success_cases ETC_APPARMORD env fs src dst h
    rcases hcase with ⟨_, _, htr⟩ | ⟨_, _, htr⟩ | ⟨hd, hout, hfs, _⟩
    · rw [htr] at hop
      simp at hop
    · rw [htr] at hop
      simp at hop
    · obtain ⟨_, hs, hkeep, q, j, hj, hji, hnode⟩ :=
        copyFileContents_success env fs src (dstCompleteFileName ETC_APPARMORD src) ps i
          hwf hsrc hreg hd hout
      have hwf1 : (CopyFile ETC_APPARMORD env fs src dst).fs.WF :=
        CopyFile_WF ETC_APPARMORD env fs src dst hwf
      have hij : i ≠ j := fun heq => hji heq.symm
      rw [← hfs] at hs hkeep hj hnode
      have hk : ((CopyFile ETC_APPARMORD env fs src dst).fs.inodes i).kind = .regular := by
        rw [hkeep, hreg]
      have hkj : ((CopyFile ETC_APPARMORD env fs src dst).fs.inodes j).kind = .regular := by
        rw [hnode]
      have hrun := CopyFile_other_inode ETC_APPARMORD env2
        (CopyFile ETC_APPARMORD env fs src dst).fs src dst ps q i j hs hk hj hkj hij
      refine ⟨by rw [hrun], ?_, ?_⟩
      · rw [hrun]
        exact List.mem_append_right _ (copyFileContents_opens_source env2 _ src _)
      · intro h2
        rw [hrun] at h2 ⊢
        have hd2 : ∀ r, resolve (CopyFile ETC_APPARMORD env fs src dst).fs
            (dstCompleteFileName ETC_APPARMORD src) ≠ .ok (r, some i) := by
          intro r heq
          rw [hj] at heq
          simp only [Except.ok.injEq, Prod.mk.injEq, Option.some.injEq] at heq
          exact hij heq.2.symm
        obtain ⟨_, _, _, q2, j2, hj2, _, hnode2⟩ :=
          copyFileContents_success env2 (CopyFile ETC_APPARMORD env fs src dst).fs src
            (dstCompleteFileName ETC_APPARMORD src) ps i hwf1 hs hk hd2 h2
        simp only [FS.content, hj2, hnode2, hj, hnode, hkeep, if_true]

/-- Witness of C4 (amended): on the sample profile, a first call that creates the
hard link, and a first call that copies because hard links cannot be created. -/
theorem CopyFile_second_call_witness :
    (CopyFile sampleEtc noFaults sampleFS "/cm/a.profile" sampleEtc).out = .ret none ∧
    (CopyFile sampleEtc crossDevice
        (CopyFile sampleEtc noFaults sampleFS "/cm/a.profile" sampleEtc).fs
        "/cm/a.profile" sampleEtc).trace
      = [.stat "/cm/a.profile", .stat (dstCompleteFileName sampleEtc "/cm/a.profile")] ∧
    (CopyFile sampleEtc crossDevice sampleFS "/cm/a.profile" sampleEtc).out = .ret none ∧
    Call.osOpen "/cm/a.profile" ∈
      (CopyFile sampleEtc noFaults
        (CopyFile sampleEtc crossDevice sampleFS "/cm/a.profile" sampleEtc).fs
        "/cm/a.profile" sampleEtc).trace :=
  ⟨by decide,
    congrArg Run.trace
      (CopyFile_second_call.1 sampleEtc noFaults crossDevice sampleFS "/cm/a.profile" sampleEtc
        (by decide) (by decide) (Or.inl (by decide))),
    by decide,
    (CopyFile_second_call.2 sampleEtc crossDevice noFaults sampleFS "/cm/a.profile" sampleEtc
      sampleFS_WF (by decide) (by decide)).2.1⟩

end Kapparmor
